import Mathlib

/-!
Verification of the task/project-management backend's core logic.

The relational rows (Prisma models) are embedded as Lean structures; the
persistence layer's query primitives (findUnique / findFirst / findMany with
where, orderBy, take) become list operations on an explicit `DB` value.
Timestamps are abstract instants (`Nat`); ids are `Int` as in the schema.
JavaScript's stable comparator sort is modelled by a stable insertion sort.
Foreign-key and uniqueness constraints enforced by the database are available
as the explicit well-formedness predicate `WFdb`.
-/

deriving instance DecidableEq for Except

namespace PMBackend

/-- Error taxonomy of the HTTP layer (NestJS exception classes). -/
inductive AppError
  | notFound
  | badRequest
  | conflict
  | forbidden
  | unauthorized
  | internal
  deriving Repr, DecidableEq

/-- Row of the `User` model (profile fields irrelevant to the claims are
omitted; `password` holds the stored hash). -/
structure User where
  id : Int
  email : String
  username : Option String := none
  password : String := ""
  deriving Repr, DecidableEq

/-- Row of the `Project` model. -/
structure Project where
  id : Int
  owner_id : Int
  name : String := ""
  status : String := "Active"
  createdAt : Nat := 0
  updatedAt : Nat := 0
  deriving Repr, DecidableEq

/-- Row of the `ProjectMember` model (`@@unique([project_id, user_id])`). -/
structure ProjectMember where
  id : Int
  project_id : Int
  user_id : Int
  role : String := "Member"
  deriving Repr, DecidableEq

/-- Row of the `Task` model (estimated/actual hours are pass-through fields
not touched by any claim and are omitted). -/
structure Task where
  id : Int
  project_id : Int
  assignee_id : Option Int := none
  title : String := ""
  description : Option String := none
  status : String := "Todo"
  priority : String := "Medium"
  dueDate : Option Nat := none
  completedAt : Option Nat := none
  createdAt : Nat := 0
  updatedAt : Nat := 0
  deriving Repr, DecidableEq

/-- Row of the `Comment` model (content omitted; not used by any claim). -/
structure Comment where
  id : Int
  task_id : Int
  user_id : Int
  createdAt : Nat := 0
  deriving Repr, DecidableEq

/-- Row of the `Attachment` model (file metadata omitted). -/
structure Attachment where
  id : Int
  task_id : Int
  user_id : Int
  createdAt : Nat := 0
  deriving Repr, DecidableEq

/-- Row of the `VerificationCode` model (`code` carries `@unique`). -/
structure VerificationCode where
  id : Int
  code : String
  userId : Int
  expiresAt : Nat
  isUsed : Bool := false
  deriving Repr, DecidableEq

/-- The relational store: one list per table. -/
structure DB where
  users : List User := []
  projects : List Project := []
  members : List ProjectMember := []
  tasks : List Task := []
  comments : List Comment := []
  attachments : List Attachment := []
  codes : List VerificationCode := []
  deriving Repr, DecidableEq

/-- `prisma.user.findUnique(where: id)`. -/
def findUser (db : DB) (uid : Int) : Option User :=
  db.users.find? (fun u => u.id == uid)

/-- `prisma.project.findUnique(where: id)`. -/
def findProject (db : DB) (pid : Int) : Option Project :=
  db.projects.find? (fun p => p.id == pid)

/-- `prisma.task.findUnique(where: id)`. -/
def findTask (db : DB) (tid : Int) : Option Task :=
  db.tasks.find? (fun t => t.id == tid)

/-- `prisma.projectMember.findFirst(where: project_id, user_id)`. -/
def findMember (db : DB) (pid uid : Int) : Option ProjectMember :=
  db.members.find? (fun m => m.project_id == pid && m.user_id == uid)

/-- `prisma.user.findUnique(where: email)` (`UsersService.findByEmail`). -/
def findUserByEmail (db : DB) (em : String) : Option User :=
  db.users.find? (fun u => u.email == em)

/-- `ProjectMembersService.findUserByIdentifier`: first user whose username
or email equals the identifier. -/
def findUserByIdentifier (db : DB) (ident : String) : Option User :=
  db.users.find? (fun u => u.username == some ident || u.email == ident)

/-- JavaScript truthiness of an optional numeric field: present and nonzero. -/
def truthy : Option Int → Bool
  | none => false
  | some n => n != 0

/-- Database-enforced integrity assumed by the services: foreign keys from
membership rows and project owners, primary-key uniqueness of task rows,
and the `@unique` constraint on verification-code strings. -/
def WFdb (db : DB) : Prop :=
  (∀ m ∈ db.members, ∃ u ∈ db.users, u.id = m.user_id) ∧
  (∀ m ∈ db.members, ∃ p ∈ db.projects, p.id = m.project_id) ∧
  (∀ p ∈ db.projects, ∃ u ∈ db.users, u.id = p.owner_id) ∧
  (db.tasks.map (fun t => t.id)).Nodup ∧
  (db.codes.map (fun c => c.code)).Nodup

instance (db : DB) : Decidable (WFdb db) := by
  unfold WFdb; infer_instance

/-- Insert one element into a comparator-sorted list (kernel-reducible model
of one step of JavaScript array sorting). -/
def insertLe (le : α → α → Bool) (x : α) : List α → List α
  | [] => [x]
  | y :: ys => if le x y then x :: y :: ys else y :: insertLe le x ys

/-- Comparator sort, modelling `Array.prototype.sort(cmp)`. The claims
proved below are invariant under the order of tie-broken elements, so a
stable insertion sort is an adequate model of the engine's stable sort. -/
def sortLe (le : α → α → Bool) : List α → List α
  | [] => []
  | x :: xs => insertLe le x (sortLe le xs)

/-- `CreateTaskDto` (class-validator DTO; `status`/`priority` defaults as in
the DTO; hour fields omitted as pass-through). -/
structure CreateTaskDto where
  project_id : Int
  assignee_id : Option Int := none
  title : String := ""
  description : Option String := none
  status : String := "Todo"
  priority : String := "Medium"
  dueDate : Option Nat := none
  completedAt : Option Nat := none
  deriving Repr, DecidableEq

/-- `UpdateTaskDto` as consumed by `TasksService.update` (every field
optional; `none` models an absent key). -/
structure UpdateTaskDto where
  project_id : Option Int := none
  assignee_id : Option Int := none
  title : Option String := none
  description : Option String := none
  status : Option String := none
  priority : Option String := none
  dueDate : Option Nat := none
  completedAt : Option Nat := none
  deriving Repr, DecidableEq

/-- The assignee validation inside `TasksService.create` (the project row is
already in hand): when a truthy `assignee_id` is supplied, the user must
exist and be a project member or the project owner. -/
def createAssigneeCheck (db : DB) (pid owner_id : Int) (aid : Option Int) :
    Except AppError Unit :=
  if truthy aid then
    let a := aid.getD 0
    match findUser db a with
    | none => .error .badRequest
    | some _ =>
      let isMember := (findMember db pid a).isSome
      if !isMember && a != owner_id then .error .badRequest
      else .ok ()
  else .ok ()

/-- The assignee validation inside `TasksService.update`: user existence,
membership lookup, then the project lookup (404-as-BadRequest when the
task's project row is missing), then the member-or-owner test. -/
def updateAssigneeCheck (db : DB) (pid : Int) (aid : Option Int) :
    Except AppError Unit :=
  if truthy aid then
    let a := aid.getD 0
    match findUser db a with
    | none => .error .badRequest
    | some _ =>
      let isMember := (findMember db pid a).isSome
      match findProject db pid with
      | none => .error .badRequest
      | some project =>
        if !isMember && a != project.owner_id then .error .badRequest
        else .ok ()
  else .ok ()

/-- The task row built by `prisma.task.create` from a create payload. -/
def buildTask (dto : CreateTaskDto) (newId : Int) (now : Nat) : Task :=
  { id := newId
    project_id := dto.project_id
    assignee_id := if truthy dto.assignee_id then dto.assignee_id else none
    title := dto.title
    description := dto.description
    status := dto.status
    priority := dto.priority
    dueDate := dto.dueDate
    completedAt := dto.completedAt
    createdAt := now
    updatedAt := now }

/-- `TasksService.create` (src/tasks/tasks.service.ts): check the project
exists, run the assignee validation, then append the new task row. Each
operation returns its result together with the store after the call
(unchanged on every error path). -/
def createTask (db : DB) (dto : CreateTaskDto) (newId : Int) (now : Nat) :
    Except AppError Task × DB :=
  match findProject db dto.project_id with
  | none => (.error .badRequest, db)
  | some project =>
    match createAssigneeCheck db dto.project_id project.owner_id dto.assignee_id with
    | .error e => (.error e, db)
    | .ok _ =>
      let t := buildTask dto newId now
      (.ok t, { db with tasks := db.tasks ++ [t] })

/-- The patched task row written by `prisma.task.update`: fields present in
the payload override, `completedAt` is defaulted to the current time when
the update sets status `Done` without one, and the destructured
`project_id` is never written back. -/
def applyTaskUpdate (task : Task) (dto : UpdateTaskDto) (now : Nat) : Task :=
  let completedField : Option Nat :=
    if dto.status == some "Done" && dto.completedAt == none then some now
    else dto.completedAt
  { task with
    title := dto.title.getD task.title
    description := (dto.description.map some).getD task.description
    status := dto.status.getD task.status
    priority := dto.priority.getD task.priority
    dueDate := (dto.dueDate.map some).getD task.dueDate
    completedAt := (completedField.map some).getD task.completedAt
    assignee_id :=
      if truthy dto.assignee_id then dto.assignee_id else task.assignee_id
    updatedAt := now }

/-- `TasksService.update` (src/tasks/tasks.service.ts): 404 when the task is
missing; reject a truthy `project_id`; validate a truthy `assignee_id`
against the task's project; then apply the patch. -/
def updateTask (db : DB) (tid : Int) (dto : UpdateTaskDto) (now : Nat) :
    Except AppError Task × DB :=
  match findTask db tid with
  | none => (.error .notFound, db)
  | some task =>
    if truthy dto.project_id then (.error .badRequest, db)
    else
      match updateAssigneeCheck db task.project_id dto.assignee_id with
      | .error e => (.error e, db)
      | .ok _ =>
        let task' := applyTaskUpdate task dto now
        (.ok task',
         { db with tasks := db.tasks.map (fun t => if t.id == tid then task' else t) })

/-- `TasksController.remove` followed by `TasksService.remove`: look up the
task and its project, compute `userIsProjectOwner`; the source hard-codes
`userIsTaskCreator = true`, raises Forbidden only when both flags are false,
and otherwise deletes the task row. -/
def removeTaskEndpoint (db : DB) (userId taskId : Int) :
    Except AppError Unit × DB :=
  match findTask db taskId with
  | none => (.error .notFound, db)
  | some task =>
    match findProject db task.project_id with
    | none => (.error .notFound, db)
    | some project =>
      let userIsProjectOwner := project.owner_id == userId
      let userIsTaskCreator := true
      if !userIsProjectOwner && !userIsTaskCreator then (.error .forbidden, db)
      else (.ok (), { db with tasks := db.tasks.filter (fun t => !(t.id == taskId)) })

/-- Modelled from the spec's authorization policy, for comparison with the
code: the acting user is authorized on a project when they own it or hold a
ProjectMember row for it. -/
def ownerOrMember (db : DB) (pid uid : Int) : Bool :=
  (match findProject db pid with
   | some p => p.owner_id == uid
   | none => false) || (findMember db pid uid).isSome

/-- Eligibility of an assignee per the assignee-validation claim: owner of
the (looked-up) project, or holder of a ProjectMember row for it. -/
def assigneeEligible (db : DB) (pid a : Int) : Prop :=
  (∃ p, findProject db pid = some p ∧ a = p.owner_id) ∨
  (∃ m ∈ db.members, m.project_id = pid ∧ m.user_id = a)

instance (db : DB) (pid a : Int) : Decidable (assigneeEligible db pid a) := by
  unfold assigneeEligible; infer_instance

/-- Task visibility filter used throughout `DashboardService` (user-scoped
variant): `OR [assignee_id = userId, project: OR [owner_id = userId,
members some user_id = userId]]`. -/
def taskVisibleTo (db : DB) (userId : Int) (t : Task) : Bool :=
  (t.assignee_id == some userId) ||
  (match findProject db t.project_id with
   | some p =>
     (p.owner_id == userId) ||
     db.members.any (fun m => m.project_id == p.id && m.user_id == userId)
   | none => false)

/-- Comment filter of `getRecentActivity`: the comment's task is visible. -/
def commentVisibleTo (db : DB) (userId : Int) (c : Comment) : Bool :=
  match findTask db c.task_id with
  | some t => taskVisibleTo db userId t
  | none => false

/-- Attachment filter of `getRecentActivity`: the attachment's task is
visible. -/
def attachmentVisibleTo (db : DB) (userId : Int) (a : Attachment) : Bool :=
  match findTask db a.task_id with
  | some t => taskVisibleTo db userId t
  | none => false

/-- Tags of the recent-activity feed. -/
inductive ActivityType
  | task_created
  | task_updated
  | comment_added
  | attachment_added
  deriving Repr, DecidableEq

/-- One entry of the recent-activity feed (display-name strings omitted). -/
structure Activity where
  actType : ActivityType
  taskId : Int
  projectId : Int
  userId : Int
  timestamp : Nat
  deriving Repr, DecidableEq

/-- Activity built from a task row: tagged `task_updated` when `completedAt`
is truthy, `task_created` otherwise; timestamp is the task's `updatedAt`;
the user shown is the assignee (0 when unassigned). -/
def taskActivity (t : Task) : Activity :=
  { actType := match t.completedAt with
      | some _ => .task_updated
      | none => .task_created
    taskId := t.id
    projectId := t.project_id
    userId := t.assignee_id.getD 0
    timestamp := t.updatedAt }

/-- Activity built from a comment row (project resolved via its task). -/
def commentActivity (db : DB) (c : Comment) : Activity :=
  { actType := .comment_added
    taskId := c.task_id
    projectId := ((findTask db c.task_id).map (fun t => t.project_id)).getD 0
    userId := c.user_id
    timestamp := c.createdAt }

/-- Activity built from an attachment row. -/
def attachmentActivity (db : DB) (a : Attachment) : Activity :=
  { actType := .attachment_added
    taskId := a.task_id
    projectId := ((findTask db a.task_id).map (fun t => t.project_id)).getD 0
    userId := a.user_id
    timestamp := a.createdAt }

/-- Descending-timestamp comparator `(a, b) => b.timestamp - a.timestamp`. -/
def actDesc (a b : Activity) : Bool :=
  b.timestamp ≤ a.timestamp

/-- The `task.findMany` query of `getRecentActivity`: visible tasks by
`updatedAt` descending, taking `limit`. -/
def recentTasksQ (db : DB) (userId : Int) (limit : Nat) : List Task :=
  (sortLe (fun a b => decide (b.updatedAt ≤ a.updatedAt))
    (db.tasks.filter (taskVisibleTo db userId))).take limit

/-- The `comment.findMany` query of `getRecentActivity`: comments on visible
tasks by `createdAt` descending, taking `limit`. -/
def recentCommentsQ (db : DB) (userId : Int) (limit : Nat) : List Comment :=
  (sortLe (fun a b => decide (b.createdAt ≤ a.createdAt))
    (db.comments.filter (commentVisibleTo db userId))).take limit

/-- The `attachment.findMany` query of `getRecentActivity`. -/
def recentAttachmentsQ (db : DB) (userId : Int) (limit : Nat) : List Attachment :=
  (sortLe (fun a b => decide (b.createdAt ≤ a.createdAt))
    (db.attachments.filter (attachmentVisibleTo db userId))).take limit

/-- The concatenation of the three activity lists of `getRecentActivity`. -/
def allActivitiesQ (db : DB) (userId : Int) (limit : Nat) : List Activity :=
  (recentTasksQ db userId limit).map taskActivity ++
  (recentCommentsQ db userId limit).map (commentActivity db) ++
  (recentAttachmentsQ db userId limit).map (attachmentActivity db)

/-- `DashboardService.getRecentActivity` (user-filtered variant): three
findMany queries — visible tasks by `updatedAt` desc, visible comments and
attachments by `createdAt` desc, each taking `limit` — mapped to activities,
concatenated, sorted by timestamp descending and truncated to `limit`. -/
def getRecentActivity (db : DB) (userId : Int) (limit : Nat) : List Activity :=
  (sortLe actDesc (allActivitiesQ db userId limit)).take limit

/-- The where-clause of `getPendingTasks`: status not `Done` and visible. -/
def pendingPred (db : DB) (userId : Int) (t : Task) : Bool :=
  (t.status != "Done") && taskVisibleTo db userId t

/-- Null-last ascending comparison on optional due dates (Postgres `asc`
puts nulls last; date strings compare chronologically). -/
def dueLe : Option Nat → Option Nat → Bool
  | _, none => true
  | none, some _ => false
  | some x, some y => x ≤ y

/-- `orderBy [priority desc, dueDate asc]`: the priority column compared
descending as the database orders the string column, ties broken by due
date ascending. -/
def pendingLe (a b : Task) : Bool :=
  if a.priority == b.priority then dueLe a.dueDate b.dueDate
  else decide (b.priority < a.priority)

/-- `DashboardService.getPendingTasks` (user-filtered variant): total count
of matching rows, plus the first `limit` rows in the stated order. The
per-row projection to a display shape is presentation-only and omitted. -/
def getPendingTasks (db : DB) (userId : Int) (limit : Nat) : Nat × List Task :=
  ((db.tasks.filter (pendingPred db userId)).length,
   (sortLe pendingLe (db.tasks.filter (pendingPred db userId))).take limit)

/-- Member user ids of a project (`project.members` include). -/
def projectMemberIds (db : DB) (pid : Int) : List Int :=
  (db.members.filter (fun m => m.project_id == pid)).map (fun m => m.user_id)

/-- Comment-author user ids of a task (`task.comments` include). -/
def commentUserIds (db : DB) (tid : Int) : List Int :=
  (db.comments.filter (fun c => c.task_id == tid)).map (fun c => c.user_id)

/-- The per-task collaborator count of `getTaskCollaboratorsCount`: size of
the set of project-member ids plus the number of distinct comment authors
that are not project members. -/
def collaboratorCount (memberIds commentIds : List Int) : Nat :=
  memberIds.dedup.length +
  ((commentIds.dedup.filter (fun uid => !(memberIds.dedup.contains uid)))).length

/-- `DashboardService.getTaskCollaboratorsCount` (user-filtered variant):
the first `limit` visible tasks, each paired with its collaborator count. -/
def getTaskCollaborators (db : DB) (userId : Int) (limit : Nat) :
    List (Task × Nat) :=
  ((db.tasks.filter (taskVisibleTo db userId)).take limit).map
    (fun t => (t, collaboratorCount (projectMemberIds db t.project_id)
                    (commentUserIds db t.id)))

/-- `email.toLowerCase().trim()` as performed before every lookup in the
password-recovery flow. -/
def normalizeEmail (s : String) : String :=
  s.toLower.trim

/-- The bcrypt hash is an external collaborator; it is modelled as an
uninterpreted tagging function (no claim depends on its properties). -/
def hashPassword (s : String) : String :=
  "hashed:" ++ s

/-- The constant response of `UsersService.forgotPassword`, returned on
every path. -/
def forgotMessage : String :=
  "Si existe una cuenta con este correo, llega un codigo de verificacion"

/-- `UsersService.forgotPassword`: look up the user by normalized email; when
absent, return the constant message unchanged; otherwise delete the user's
unused codes, insert a fresh code (`rngCode`, expiring 15 minutes from now)
and dispatch it by email (external; a dispatch failure is caught and the
same message returned). The caller-visible response is the first component. -/
def forgotPassword (db : DB) (email rngCode : String) (newId : Int) (now : Nat) :
    String × DB :=
  match findUserByEmail db (normalizeEmail email) with
  | none => (forgotMessage, db)
  | some user =>
    let cleared := db.codes.filter
      (fun r => !(r.userId == user.id && r.isUsed == false))
    let fresh : VerificationCode :=
      { id := newId, code := rngCode, userId := user.id
        expiresAt := now + 15, isUsed := false }
    (forgotMessage, { db with codes := cleared ++ [fresh] })

/-- `ResetPasswordDto`. -/
structure ResetPasswordDto where
  code : String
  email : String
  password : String
  confirmPassword : String
  deriving Repr, DecidableEq

/-- The `verificationCode.findFirst` filter of `resetPassword`: matching
code string, owning user, not yet used. -/
def codeMatches (dto : ResetPasswordDto) (uid : Int)
    (r : VerificationCode) : Bool :=
  r.code == dto.code && r.userId == uid && r.isUsed == false

/-- `UsersService.resetPassword`: password/confirmation equality, user lookup
by normalized email, `verificationCode.findFirst(code, userId, isUsed:
false)`, expiry check (`expiresAt < now` rejects), then store the new hash
and mark the code used. -/
def resetPassword (db : DB) (dto : ResetPasswordDto) (now : Nat) :
    Except AppError String × DB :=
  if dto.password != dto.confirmPassword then (.error .badRequest, db)
  else
    match findUserByEmail db (normalizeEmail dto.email) with
    | none => (.error .notFound, db)
    | some user =>
      match db.codes.find? (codeMatches dto user.id) with
      | none => (.error .unauthorized, db)
      | some vc =>
        if vc.expiresAt < now then (.error .unauthorized, db)
        else
          let db1 := { db with users := (db.users.map
            (fun (u : User) => if u.id == user.id then
              { u with password := hashPassword dto.password } else u)) }
          let db2 := { db1 with codes := (db1.codes.map
            (fun (r : VerificationCode) =>
              if r.id == vc.id then { r with isUsed := true } else r)) }
          (.ok "ok", db2)

/-- Valid roles of `CreateProjectMemberDto` (`ProjectRole` enum). -/
def validRoles : List String :=
  ["Member", "Leader", "Collaborator", "Observer", "ProjectManager"]

/-- `ProjectMembersService.create`: role re-validation, project existence,
user resolution by username-or-email, duplicate-membership check raising
Conflict, then row insertion. -/
def createProjectMember (db : DB) (pid : Int) (ident role : String)
    (newId : Int) : Except AppError ProjectMember × DB :=
  if !(validRoles.contains role) then (.error .badRequest, db)
  else
    match findProject db pid with
    | none => (.error .badRequest, db)
    | some _ =>
      match findUserByIdentifier db ident with
      | none => (.error .badRequest, db)
      | some user =>
        match findMember db pid user.id with
        | some _ => (.error .conflict, db)
        | none =>
          let row : ProjectMember :=
            { id := newId, project_id := pid, user_id := user.id, role := role }
          (.ok row, { db with members := db.members ++ [row] })

/-- Whether an `Except` result is a success. -/
def exOk : Except AppError α → Bool
  | .ok _ => true
  | .error _ => false

/-- Whether an `Except` result is specifically a Forbidden error. -/
def exForbidden : Except AppError α → Bool
  | .error .forbidden => true
  | _ => false

/-- Task row 1 of `dbA`. -/
def taskA : Task :=
  { id := 1, project_id := 1, assignee_id := some 2, priority := "High" }

/-- Concrete store used by the concrete theorems below: project 1 is owned by
user 1; user 2 is its only member; user 3 is an outsider; task 1 belongs to
project 1 and is assigned to user 2; code row 1 is already used, row 2 is
fresh until instant 100. -/
def dbA : DB :=
  { users :=
      [{ id := 1, email := "owner@x.com" },
       { id := 2, email := "member@x.com", username := some "memb" },
       { id := 3, email := "outsider@x.com" }]
    projects := [{ id := 1, owner_id := 1 }]
    members := [{ id := 1, project_id := 1, user_id := 2 }]
    tasks := [taskA]
    comments := []
    attachments := []
    codes :=
      [{ id := 1, code := "X7K9P2", userId := 1, expiresAt := 100, isUsed := true },
       { id := 2, code := "FRESH1", userId := 1, expiresAt := 100, isUsed := false }] }

/-- User row 2 of `dbA` (resolved by the identifier `memb`). -/
def userMemb : User :=
  { id := 2, email := "member@x.com", username := some "memb" }

/-- Concrete store of the collaborator-count example: project 1 has member
rows for users 1 and 2, and task 1 carries comments by users 2 and 3. -/
def dbB : DB :=
  { users :=
      [{ id := 1, email := "a@x.com" }, { id := 2, email := "b@x.com" },
       { id := 3, email := "c@x.com" }]
    projects := [{ id := 1, owner_id := 1 }]
    members :=
      [{ id := 1, project_id := 1, user_id := 1 },
       { id := 2, project_id := 1, user_id := 2 }]
    tasks := [{ id := 1, project_id := 1 }]
    comments :=
      [{ id := 1, task_id := 1, user_id := 2, createdAt := 6 },
       { id := 2, task_id := 1, user_id := 3, createdAt := 7 }]
    attachments := []
    codes := [] }

/-- Task row 1 of `dbB`. -/
def taskB : Task :=
  { id := 1, project_id := 1 }

/-- An update payload supplying the falsy `project_id` value 0 together with
a real field change. -/
def dtoZeroProject : UpdateTaskDto :=
  { project_id := some 0, title := some "renamed" }

/-- An update payload supplying a nonzero `project_id`. -/
def dtoMoveProject : UpdateTaskDto :=
  { project_id := some 2 }

/-- An update payload marking a task `Done` without a completion date. -/
def dtoMarkDone : UpdateTaskDto :=
  { status := some "Done" }

/-- A create payload naming the falsy assignee id 0. -/
def dtoAssignZero : CreateTaskDto :=
  { project_id := 1, assignee_id := some 0, title := "t" }

/-- A create payload naming the outsider (user 3) as assignee. -/
def dtoAssignOutsider : CreateTaskDto :=
  { project_id := 1, assignee_id := some 3, title := "t" }

/-- A reset request presenting the already-used code of `dbA`. -/
def dtoSpentReset : ResetPasswordDto :=
  { code := "X7K9P2", email := "owner@x.com"
    password := "npw", confirmPassword := "npw" }

/-- Task row 1 of `dbA` after the `dtoMarkDone` update at instant 9. -/
def taskDoneA : Task :=
  { id := 1, project_id := 1, assignee_id := some 2, status := "Done"
    priority := "High", completedAt := some 9, updatedAt := 9 }

/-- `dbA` after the `dtoMarkDone` update at instant 9. -/
def dbDoneA : DB :=
  { dbA with tasks := [taskDoneA] }

theorem insertLe_perm (le : α → α → Bool) (x : α) (l : List α) :
    (insertLe le x l).Perm (x :: l) := by
  induction l with
  | nil => simp [insertLe]
  | cons y ys ih =>
    simp only [insertLe]
    cases h : le x y
    · simp only [Bool.false_eq_true, if_false]
      exact ((ih.cons y).trans (List.Perm.swap x y ys))
    · simp

theorem sortLe_perm (le : α → α → Bool) (l : List α) :
    (sortLe le l).Perm l := by
  induction l with
  | nil => simp [sortLe]
  | cons x xs ih =>
    exact (insertLe_perm le x (sortLe le xs)).trans (ih.cons x)

theorem mem_sortLe {le : α → α → Bool} {l : List α} {a : α} :
    a ∈ sortLe le l ↔ a ∈ l :=
  (sortLe_perm le l).mem_iff

theorem mem_insertLe {le : α → α → Bool} {x : α} {l : List α} {a : α} :
    a ∈ insertLe le x l ↔ a = x ∨ a ∈ l := by
  rw [(insertLe_perm le x l).mem_iff]; simp

theorem pairwise_insertLe {le : α → α → Bool}
    (total : ∀ a b, le a b || le b a)
    (trans : ∀ a b c, le a b = true → le b c = true → le a c = true)
    {l : List α} (x : α) (h : l.Pairwise (fun a b => le a b = true)) :
    (insertLe le x l).Pairwise (fun a b => le a b = true) := by
  induction l with
  | nil => simp [insertLe]
  | cons y ys ih =>
    rcases List.pairwise_cons.mp h with ⟨hy, hys⟩
    simp only [insertLe]
    cases hxy : le x y
    · have hyx : le y x = true := by
        rcases Bool.or_eq_true_iff.mp (total x y) with h1 | h1
        · rw [h1] at hxy; exact absurd hxy (by simp)
        · exact h1
      simp only [Bool.false_eq_true, if_false]
      refine List.pairwise_cons.mpr ⟨?_, ih hys⟩
      intro b hb
      rcases mem_insertLe.mp hb with rfl | hb
      · exact hyx
      · exact hy b hb
    · simp only [if_true]
      refine List.pairwise_cons.mpr ⟨?_, h⟩
      intro b hb
      rcases List.mem_cons.mp hb with rfl | hb
      · exact hxy
      · exact trans x y b hxy (hy b hb)

theorem pairwise_sortLe {le : α → α → Bool}
    (total : ∀ a b, le a b || le b a)
    (trans : ∀ a b c, le a b = true → le b c = true → le a c = true)
    (l : List α) :
    (sortLe le l).Pairwise (fun a b => le a b = true) := by
  induction l with
  | nil => simp [sortLe]
  | cons x xs ih => exact pairwise_insertLe total trans x ih

/-- Claim C1: the task-deletion endpoint is claimed to raise a
Forbidden-class error whenever the acting user neither owns the task's
project nor holds a ProjectMember row for it. The code hard-codes
`userIsTaskCreator = true`, so the Forbidden branch is unreachable: no call
ever returns Forbidden, and in the concrete store `dbA` user 3 — neither
owner nor member of project 1 — successfully deletes task 1. -/
theorem task_remove_forbidden_unreachable :
    (∀ db u t, exForbidden (removeTaskEndpoint db u t).1 = false) ∧
    ownerOrMember dbA 1 3 = false ∧
    removeTaskEndpoint dbA 3 1 = (.ok (), { dbA with tasks := [] }) := by
  refine ⟨?_, by decide, by decide⟩
  intro db u t
  unfold removeTaskEndpoint
  split
  · rfl
  · split
    · rfl
    · simp [exForbidden]

/-- Claim C7: the forgot-password operation returns the same success message
whether or not the supplied email belongs to an existing user — the
caller-visible response is a constant, so two runs that differ only in the
store (in particular, in whether the account exists) yield identical
responses. -/
theorem forgot_password_uniform_response :
    (∀ db email rng nid now,
      (forgotPassword db email rng nid now).1 = forgotMessage) ∧
    (∀ dbX dbY email rng nid now,
      (forgotPassword dbX email rng nid now).1 =
      (forgotPassword dbY email rng nid now).1) := by
  have h : ∀ db email rng nid now,
      (forgotPassword db email rng nid now).1 = forgotMessage := by
    intro db email rng nid now
    unfold forgotPassword
    cases findUserByEmail db (normalizeEmail email) <;> rfl
  exact ⟨h, fun dbX dbY email rng nid now => by rw [h, h]⟩

/-- Claim C9, counterexample: an update request that supplies the
`project_id` value 0 is claimed to fail with a BadRequest error, but the
JavaScript truthiness test `if (project_id)` lets it through and the update
succeeds. -/
theorem update_zero_project_id_not_rejected :
    dtoZeroProject.project_id = some 0 ∧
    exOk (updateTask dbA 1 dtoZeroProject 5).1 = true := by
  exact ⟨rfl, by decide⟩

/-- Claim C9, amended: an update on an existing task that supplies a nonzero
`project_id` fails with a BadRequest error before any modification, and no
successful update ever changes a task's `project_id` — so after any sequence
of updates it equals the value at creation (a supplied `project_id` of 0
raises no error but is equally discarded). -/
theorem task_project_reference_immutable :
    (∀ db tid dto now p, (findTask db tid).isSome = true →
        dto.project_id = some p → p ≠ 0 →
        updateTask db tid dto now = (.error .badRequest, db)) ∧
    (∀ db tid dto now t' db', updateTask db tid dto now = (.ok t', db') →
        ∀ t2 ∈ db'.tasks, ∃ t1 ∈ db.tasks, t1.id = t2.id ∧
          t2.project_id = t1.project_id) := by
  constructor
  · intro db tid dto now p hsome hp hpz
    have htr : truthy dto.project_id = true := by
      rw [hp]; simpa [truthy] using hpz
    unfold updateTask
    cases hft : findTask db tid with
    | none => rw [hft] at hsome; simp at hsome
    | some task => simp [htr]
  · intro db tid dto now t' db' heq t2 ht2
    unfold updateTask at heq
    cases hft : findTask db tid with
    | none => rw [hft] at heq; simp at heq
    | some task =>
      rw [hft] at heq
      by_cases htr : truthy dto.project_id = true
      · simp [htr] at heq
      · simp only [htr, Bool.false_eq_true, if_false] at heq
        cases hac : updateAssigneeCheck db task.project_id dto.assignee_id with
        | error e => rw [hac] at heq; simp at heq
        | ok _ =>
          rw [hac] at heq
          simp only [Prod.mk.injEq, Except.ok.injEq] at heq
          obtain ⟨rfl, rfl⟩ := heq
          simp only [List.mem_map] at ht2
          obtain ⟨t1, ht1, heq1⟩ := ht2
          by_cases hid : (t1.id == tid) = true
          · rw [if_pos hid] at heq1
            refine ⟨task, List.mem_of_find?_eq_some hft, ?_, ?_⟩
            · rw [← heq1]; rfl
            · rw [← heq1]; rfl
          · rw [if_neg hid] at heq1
            exact ⟨t1, ht1, by rw [heq1], by rw [heq1]⟩

/-- Claim C9, witness: the amended rejection applies — updating task 1 of
`dbA` with `project_id = 2` fails with BadRequest and leaves the store
unchanged. -/
theorem task_project_reference_immutable_witness :
    updateTask dbA 1 dtoMoveProject 5 = (.error .badRequest, dbA) :=
  task_project_reference_immutable.1 dbA 1 dtoMoveProject 5 2
    (by decide) rfl (by decide)

/-- Claim C10: a successful update whose payload sets status `Done` without
supplying a `completedAt` value leaves the task with `completedAt` equal to
the current instant — such a task is never `Done` with a null completion
time. -/
theorem done_status_sets_completed_at :
    ∀ db tid dto now t' db',
      dto.status = some "Done" → dto.completedAt = none →
      updateTask db tid dto now = (.ok t', db') →
      t'.completedAt = some now := by
  intro db tid dto now t' db' hst hca heq
  unfold updateTask at heq
  cases hft : findTask db tid with
  | none => rw [hft] at heq; simp at heq
  | some task =>
    rw [hft] at heq
    by_cases htr : truthy dto.project_id = true
    · simp [htr] at heq
    · simp only [htr, Bool.false_eq_true, if_false] at heq
      cases hac : updateAssigneeCheck db task.project_id dto.assignee_id with
      | error e => rw [hac] at heq; simp at heq
      | ok _ =>
        rw [hac] at heq
        simp only [Prod.mk.injEq, Except.ok.injEq] at heq
        obtain ⟨rfl, rfl⟩ := heq
        simp [applyTaskUpdate, hst, hca]

/-- Claim C10, witness: marking task 1 of `dbA` as `Done` at instant 9 with
no completion date in the payload yields a task whose `completedAt` is 9. -/
theorem done_status_sets_completed_at_witness :
    taskDoneA.completedAt = some 9 :=
  done_status_sets_completed_at dbA 1 dtoMarkDone 9 taskDoneA dbDoneA
    rfl rfl (by decide)

theorem findMember_isSome_iff {db : DB} {pid a : Int} :
    (findMember db pid a).isSome = true ↔
    ∃ m ∈ db.members, m.project_id = pid ∧ m.user_id = a := by
  unfold findMember
  rw [List.find?_isSome]
  constructor
  · rintro ⟨m, hm, hp⟩
    rw [Bool.and_eq_true, beq_iff_eq, beq_iff_eq] at hp
    exact ⟨m, hm, hp⟩
  · rintro ⟨m, hm, h1, h2⟩
    exact ⟨m, hm, by simp [h1, h2]⟩

theorem findUser_isSome_of_mem {db : DB} {a : Int}
    (h : ∃ u ∈ db.users, u.id = a) : (findUser db a).isSome = true := by
  unfold findUser
  rw [List.find?_isSome]
  obtain ⟨u, hu, he⟩ := h
  exact ⟨u, hu, by simp [he]⟩

theorem findProject_isSome_of_mem {db : DB} {pid : Int}
    (h : ∃ p ∈ db.projects, p.id = pid) : (findProject db pid).isSome = true := by
  unfold findProject
  rw [List.find?_isSome]
  obtain ⟨p, hp, he⟩ := h
  exact ⟨p, hp, by simp [he]⟩

theorem createAssigneeCheck_ok {db : DB} {pid owner_id a : Int} (ha : a ≠ 0)
    (hu : (findUser db a).isSome = true)
    (h : (findMember db pid a).isSome = true ∨ a = owner_id) :
    createAssigneeCheck db pid owner_id (some a) = .ok () := by
  unfold createAssigneeCheck
  have htr : truthy (some a) = true := by simpa [truthy] using ha
  obtain ⟨u, hufind⟩ := Option.isSome_iff_exists.mp hu
  simp only [htr, if_true, Option.getD_some, hufind]
  rcases h with hmem | howner
  · simp [hmem]
  · simp [howner]

theorem createAssigneeCheck_err {db : DB} {pid owner_id a : Int} (ha : a ≠ 0)
    (hmem : (findMember db pid a).isSome = false) (hne : a ≠ owner_id) :
    createAssigneeCheck db pid owner_id (some a) = .error .badRequest := by
  unfold createAssigneeCheck
  have htr : truthy (some a) = true := by simpa [truthy] using ha
  simp only [htr, if_true, Option.getD_some]
  cases hfu : findUser db a with
  | none => rfl
  | some u => simp [hmem, hne]

theorem updateAssigneeCheck_ok {db : DB} {pid a : Int} {project : Project}
    (ha : a ≠ 0) (hu : (findUser db a).isSome = true)
    (hfp : findProject db pid = some project)
    (h : (findMember db pid a).isSome = true ∨ a = project.owner_id) :
    updateAssigneeCheck db pid (some a) = .ok () := by
  unfold updateAssigneeCheck
  have htr : truthy (some a) = true := by simpa [truthy] using ha
  obtain ⟨u, hufind⟩ := Option.isSome_iff_exists.mp hu
  simp only [htr, if_true, Option.getD_some, hufind, hfp]
  rcases h with hmem | howner
  · simp [hmem]
  · simp [howner]

theorem updateAssigneeCheck_err {db : DB} {pid a : Int} (ha : a ≠ 0)
    (h : ∀ project, findProject db pid = some project →
      (findMember db pid a).isSome = false ∧ a ≠ project.owner_id) :
    updateAssigneeCheck db pid (some a) = .error .badRequest := by
  unfold updateAssigneeCheck
  have htr : truthy (some a) = true := by simpa [truthy] using ha
  simp only [htr, if_true, Option.getD_some]
  cases hfu : findUser db a with
  | none => rfl
  | some u =>
    cases hfp : findProject db pid with
    | none => rfl
    | some project =>
      obtain ⟨h1, h2⟩ := h project hfp
      simp [h1, h2]

theorem not_eligible_no_member {db : DB} {pid a : Int}
    (h : ¬ assigneeEligible db pid a) : (findMember db pid a).isSome = false := by
  cases hm : (findMember db pid a).isSome
  · rfl
  · exact absurd (Or.inr (findMember_isSome_iff.mp hm)) h

theorem not_eligible_not_owner {db : DB} {pid a : Int} {p : Project}
    (h : ¬ assigneeEligible db pid a) (hfp : findProject db pid = some p) :
    a ≠ p.owner_id :=
  fun he => h (Or.inl ⟨p, hfp, he⟩)

theorem eligible_user_exists {db : DB} {pid a : Int} (hwf : WFdb db)
    (h : assigneeEligible db pid a) : (findUser db a).isSome = true := by
  obtain ⟨hmu, hmp, hpu, -, -⟩ := hwf
  rcases h with ⟨p, hp, hap⟩ | ⟨m, hm, h1, h2⟩
  · have hpmem : p ∈ db.projects := List.mem_of_find?_eq_some hp
    obtain ⟨u, hu, he⟩ := hpu p hpmem
    exact findUser_isSome_of_mem ⟨u, hu, he.trans hap.symm⟩
  · obtain ⟨u, hu, he⟩ := hmu m hm
    exact findUser_isSome_of_mem ⟨u, hu, he.trans h2⟩

theorem eligible_project_exists {db : DB} {pid a : Int} (hwf : WFdb db)
    (h : assigneeEligible db pid a) : (findProject db pid).isSome = true := by
  rcases h with ⟨p, hp, -⟩ | ⟨m, hm, h1, -⟩
  · rw [hp]; rfl
  · obtain ⟨-, hmp, -, -, -⟩ := hwf
    obtain ⟨p, hpmem, he⟩ := hmp m hm
    exact findProject_isSome_of_mem ⟨p, hpmem, he.trans h1⟩

theorem eligible_check_disj {db : DB} {pid a : Int} {project : Project}
    (hfp : findProject db pid = some project) (h : assigneeEligible db pid a) :
    (findMember db pid a).isSome = true ∨ a = project.owner_id := by
  rcases h with ⟨p, hp, hap⟩ | hm
  · right
    rw [hfp] at hp
    cases hp
    exact hap
  · left
    exact findMember_isSome_iff.mpr hm

/-- Claim C2, counterexample: a create request naming assignee 0 — a user id
that is neither the project owner nor a member — is claimed to fail with a
validation error, but the JavaScript truthiness test `if (assignee_id)`
skips the validation: the task is created, with no assignee connected. -/
theorem create_zero_assignee_bypasses_validation :
    dtoAssignZero.assignee_id = some 0 ∧
    ownerOrMember dbA 1 0 = false ∧
    createTask dbA dtoAssignZero 50 5 =
      (.ok (buildTask dtoAssignZero 50 5),
       { dbA with tasks := dbA.tasks ++ [buildTask dtoAssignZero 50 5] }) ∧
    (buildTask dtoAssignZero 50 5).assignee_id = none := by
  refine ⟨rfl, by decide, by decide, by decide⟩

/-- Claim C2, amended: for every create or update request supplying a
nonzero assignee id `a`, the operation fails with a BadRequest error —
leaving the store unchanged — unless `a` is the owner of the task's project
or holds a ProjectMember row for it, in which case the mutation succeeds
with `a` as assignee (an assignee id of 0 instead behaves as if no assignee
were supplied). -/
theorem assignee_must_be_owner_or_member :
    (∀ db dto nid now a, WFdb db → dto.assignee_id = some a → a ≠ 0 →
      ((assigneeEligible db dto.project_id a →
         ∃ t db', createTask db dto nid now = (.ok t, db') ∧
           t.assignee_id = some a) ∧
       (¬ assigneeEligible db dto.project_id a →
         createTask db dto nid now = (.error .badRequest, db)))) ∧
    (∀ db tid dto now a task, WFdb db → dto.assignee_id = some a → a ≠ 0 →
      dto.project_id = none → findTask db tid = some task →
      ((assigneeEligible db task.project_id a →
         ∃ t' db', updateTask db tid dto now = (.ok t', db') ∧
           t'.assignee_id = some a) ∧
       (¬ assigneeEligible db task.project_id a →
         updateTask db tid dto now = (.error .badRequest, db)))) := by
  constructor
  · intro db dto nid now a hwf haid haz
    constructor
    · intro helig
      obtain ⟨project, hfp⟩ :=
        Option.isSome_iff_exists.mp (eligible_project_exists hwf helig)
      have hok := createAssigneeCheck_ok haz (eligible_user_exists hwf helig)
        (eligible_check_disj hfp helig)
      refine ⟨buildTask dto nid now,
        { db with tasks := db.tasks ++ [buildTask dto nid now] }, ?_, ?_⟩
      · unfold createTask
        rw [haid, hfp]
        simp only [hok]
      · simp [buildTask, haid, truthy, haz]
    · intro hnelig
      cases hfp : findProject db dto.project_id with
      | none =>
        unfold createTask
        rw [hfp]
      | some project =>
        have herr := createAssigneeCheck_err haz
          (not_eligible_no_member hnelig) (not_eligible_not_owner hnelig hfp)
        unfold createTask
        rw [haid, hfp]
        simp only [herr]
  · intro db tid dto now a task hwf haid haz hpid hft
    have htrp : truthy dto.project_id = false := by rw [hpid]; rfl
    constructor
    · intro helig
      obtain ⟨project, hfp⟩ :=
        Option.isSome_iff_exists.mp (eligible_project_exists hwf helig)
      have hok := updateAssigneeCheck_ok haz (eligible_user_exists hwf helig)
        hfp (eligible_check_disj hfp helig)
      refine ⟨applyTaskUpdate task dto now,
        { db with tasks := (db.tasks.map
            (fun t => if t.id == tid then applyTaskUpdate task dto now else t)) },
        ?_, ?_⟩
      · unfold updateTask
        rw [haid, hft]
        simp only [htrp, Bool.false_eq_true, if_false, hok]
      · simp [applyTaskUpdate, haid, truthy, haz]
    · intro hnelig
      have herr := updateAssigneeCheck_err haz
        (fun project hfp =>
          ⟨not_eligible_no_member hnelig, not_eligible_not_owner hnelig hfp⟩)
      unfold updateTask
      rw [haid, hft]
      simp only [htrp, Bool.false_eq_true, if_false, herr]

/-- Claim C2, witness: naming the outsider (user 3, neither owner nor
member of project 1) as assignee makes task creation fail with BadRequest
and leaves `dbA` unchanged. -/
theorem assignee_must_be_owner_or_member_witness :
    createTask dbA dtoAssignOutsider 50 5 = (.error .badRequest, dbA) :=
  (assignee_must_be_owner_or_member.1 dbA dtoAssignOutsider 50 5 3
    (by decide) rfl (by decide)).2 (by decide)

/-- Claim C8: when the identifier resolves to a user who already holds a
ProjectMember row for the project, `ProjectMembersService.create` fails with
a Conflict error and the membership table is unchanged — no second row for
the pair is created. -/
theorem duplicate_member_conflict :
    ∀ db pid ident role nid u,
      validRoles.contains role = true →
      (findProject db pid).isSome = true →
      findUserByIdentifier db ident = some u →
      (findMember db pid u.id).isSome = true →
      createProjectMember db pid ident role nid = (.error .conflict, db) := by
  intro db pid ident role nid u hrole hproj huser hmem
  unfold createProjectMember
  obtain ⟨p, hp⟩ := Option.isSome_iff_exists.mp hproj
  obtain ⟨m, hm⟩ := Option.isSome_iff_exists.mp hmem
  rw [hp, huser]
  simp only [hrole, Bool.not_true, Bool.false_eq_true, if_false, hm]

/-- Claim C8, witness: in `dbA`, adding the already-registered member user 2
(resolved by identifier `memb`) to project 1 yields Conflict and the store
is unchanged. -/
theorem duplicate_member_conflict_witness :
    createProjectMember dbA 1 "memb" "Member" 99 = (.error .conflict, dbA) :=
  duplicate_member_conflict dbA 1 "memb" "Member" 99 userMemb
    (by decide) (by decide) (by decide) (by decide)

theorem code_unique_eq {db : DB}
    (hnodup : (db.codes.map (fun c => c.code)).Nodup)
    {r1 r2 : VerificationCode} (h1 : r1 ∈ db.codes) (h2 : r2 ∈ db.codes)
    (he : r1.code = r2.code) : r1 = r2 :=
  List.inj_on_of_nodup_map hnodup h1 h2 he

theorem codeMatches_spec {dto : ResetPasswordDto} {uid : Int}
    {r : VerificationCode} (h : codeMatches dto uid r = true) :
    r.code = dto.code ∧ r.userId = uid ∧ r.isUsed = false := by
  unfold codeMatches at h
  rw [Bool.and_eq_true, Bool.and_eq_true] at h
  obtain ⟨⟨h1, h2⟩, h3⟩ := h
  rw [beq_iff_eq] at h1 h2 h3
  exact ⟨h1, h2, h3⟩

theorem resetPassword_spent_code {db : DB} {dto : ResetPasswordDto}
    {now : Nat} {row : VerificationCode}
    (hnodup : (db.codes.map (fun c => c.code)).Nodup)
    (hrow : row ∈ db.codes) (hcode : row.code = dto.code)
    (hspent : row.isUsed = true ∨ row.expiresAt < now) :
    exOk (resetPassword db dto now).1 = false ∧
    (resetPassword db dto now).2 = db := by
  suffices h : ∃ e, resetPassword db dto now = (.error e, db) by
    obtain ⟨e, he⟩ := h
    rw [he]
    exact ⟨rfl, rfl⟩
  unfold resetPassword
  split
  · exact ⟨.badRequest, rfl⟩
  · split
    · exact ⟨.notFound, rfl⟩
    next user hu =>
      split
      · exact ⟨.unauthorized, rfl⟩
      next vc hfind =>
        split
        · exact ⟨.unauthorized, rfl⟩
        next hexp =>
          exfalso
          obtain ⟨hc, -, hus⟩ := codeMatches_spec (List.find?_some hfind)
          have hvcmem : vc ∈ db.codes := List.mem_of_find?_eq_some hfind
          have hveq : vc = row :=
            code_unique_eq hnodup hvcmem hrow (hc.trans hcode.symm)
          rcases hspent with hused | hexp2
          · rw [hveq, hused] at hus
            exact absurd hus (by simp)
          · exact hexp (hveq ▸ hexp2)

theorem resetPassword_ok_inv {db : DB} {dto : ResetPasswordDto} {now : Nat}
    {m : String} {db2 : DB}
    (h : resetPassword db dto now = (.ok m, db2)) :
    ∃ user vc,
      findUserByEmail db (normalizeEmail dto.email) = some user ∧
      db.codes.find? (codeMatches dto user.id) = some vc ∧
      db2.codes = db.codes.map (fun (r : VerificationCode) =>
        if r.id == vc.id then { r with isUsed := true } else r) := by
  unfold resetPassword at h
  split at h
  · simp at h
  · split at h
    · simp at h
    next user hu =>
      split at h
      · simp at h
      next vc hfind =>
        split at h
        · simp at h
        next hexp =>
          refine ⟨user, vc, hu, hfind, ?_⟩
          simp only [Prod.mk.injEq] at h
          obtain ⟨-, hdb2⟩ := h
          rw [← hdb2]

/-- Claim C6: a verification code that is already marked used, or whose
expiry lies in the past, never yields a successful password reset: the
operation fails leaving the store (in particular the user's password)
unchanged, and — when the request is otherwise well-formed — with an
Unauthorized error. Consequently, after one successful reset the same code
can never succeed again: two attempts with one code succeed at most once. -/
theorem verification_code_single_use :
    (∀ db dto now row, (db.codes.map (fun c => c.code)).Nodup →
       row ∈ db.codes → row.code = dto.code →
       (row.isUsed = true ∨ row.expiresAt < now) →
       exOk (resetPassword db dto now).1 = false ∧
       (resetPassword db dto now).2 = db) ∧
    (∀ db dto now row, (db.codes.map (fun c => c.code)).Nodup →
       row ∈ db.codes → row.code = dto.code →
       (row.isUsed = true ∨ row.expiresAt < now) →
       dto.password = dto.confirmPassword →
       (findUserByEmail db (normalizeEmail dto.email)).isSome = true →
       (resetPassword db dto now).1 = .error .unauthorized) ∧
    (∀ db dto now m db2 dto2 now2,
       (db.codes.map (fun c => c.code)).Nodup →
       resetPassword db dto now = (.ok m, db2) → dto2.code = dto.code →
       exOk (resetPassword db2 dto2 now2).1 = false) := by
  refine ⟨fun db dto now row h1 h2 h3 h4 =>
    resetPassword_spent_code h1 h2 h3 h4, ?_, ?_⟩
  · intro db dto now row hnodup hrow hcode hspent hpw husome
    unfold resetPassword
    split
    · next hcond =>
      rw [bne_iff_ne] at hcond
      exact absurd hpw hcond
    · split
      · next hu =>
        rw [hu] at husome
        simp at husome
      next user hu =>
        split
        · rfl
        next vc hfind =>
          split
          · rfl
          next hexp =>
            exfalso
            obtain ⟨hc, -, hus⟩ := codeMatches_spec (List.find?_some hfind)
            have hvcmem : vc ∈ db.codes := List.mem_of_find?_eq_some hfind
            have hveq : vc = row :=
              code_unique_eq hnodup hvcmem hrow (hc.trans hcode.symm)
            rcases hspent with hused | hexp2
            · rw [hveq, hused] at hus
              exact absurd hus (by simp)
            · exact hexp (hveq ▸ hexp2)
  · intro db dto now m db2 dto2 now2 hnodup hok hcode2
    obtain ⟨user, vc, hu, hfind, hcodes2⟩ := resetPassword_ok_inv hok
    obtain ⟨hc, -, -⟩ := codeMatches_spec (List.find?_some hfind)
    have hvcmem : vc ∈ db.codes := List.mem_of_find?_eq_some hfind
    have hrow2 : { vc with isUsed := true } ∈ db2.codes := by
      rw [hcodes2]
      have hm := List.mem_map_of_mem (fun (r : VerificationCode) =>
        if r.id == vc.id then { r with isUsed := true } else r) hvcmem
      simpa using hm
    have hnodup2 : (db2.codes.map (fun c => c.code)).Nodup := by
      rw [hcodes2, List.map_map]
      have heqf : ((fun (c : VerificationCode) => c.code) ∘
          (fun (r : VerificationCode) =>
            if r.id == vc.id then { r with isUsed := true } else r)) =
          (fun (c : VerificationCode) => c.code) := by
        funext r
        by_cases hid : r.id = vc.id
        · simp [hid]
        · simp [hid]
      rw [heqf]
      exact hnodup
    exact (resetPassword_spent_code hnodup2 hrow2
      (by rw [hc, hcode2]) (Or.inl rfl)).1

/-- Claim C6, witness: in `dbA` the code `X7K9P2` is already used, so a
reset presenting it fails and leaves the store unchanged. -/
theorem verification_code_single_use_witness :
    exOk (resetPassword dbA dtoSpentReset 50).1 = false ∧
    (resetPassword dbA dtoSpentReset 50).2 = dbA :=
  verification_code_single_use.1 dbA dtoSpentReset 50
    { id := 1, code := "X7K9P2", userId := 1, expiresAt := 100, isUsed := true }
    (by decide) (by decide) rfl (Or.inl rfl)

theorem collaboratorCount_eq_card (m c : List Int) :
    collaboratorCount m c = (m.toFinset ∪ c.toFinset).card := by
  unfold collaboratorCount
  have h1 : (c.dedup.filter (fun uid => !(m.dedup.contains uid))).length
      = (c.toFinset.filter (fun x => (!(m.dedup.contains x)) = true)).card := by
    have hn : (c.dedup.filter (fun uid => !(m.dedup.contains uid))).Nodup :=
      (List.nodup_dedup c).filter _
    rw [← List.Nodup.dedup hn, ← List.card_toFinset, List.toFinset_filter]
    congr 1
    ext x
    simp [List.mem_dedup]
  have h2 : c.toFinset.filter (fun x => (!(m.dedup.contains x)) = true)
      = c.toFinset \ m.toFinset := by
    ext x
    simp [List.elem_iff, List.mem_dedup, Finset.mem_sdiff, List.mem_toFinset]
  have h3 : m.dedup.length = m.toFinset.card := (List.card_toFinset m).symm
  rw [h1, h2, h3, Nat.add_comm, Finset.card_sdiff_add_card, Finset.union_comm]

/-- Claim C5: every entry of the task-collaborators section reports a count
equal to the cardinality of the union of the project's member ids with the
distinct comment-author ids of that task; in the concrete store `dbB` —
member ids 1 and 2, comment authors 2 and 3 — the reported count is 3. -/
theorem task_collaborators_union_count :
    (∀ db u lim t cnt, (t, cnt) ∈ getTaskCollaborators db u lim →
       cnt = ((projectMemberIds db t.project_id).toFinset ∪
              (commentUserIds db t.id).toFinset).card) ∧
    projectMemberIds dbB 1 = [1, 2] ∧
    commentUserIds dbB 1 = [2, 3] ∧
    getTaskCollaborators dbB 1 10 = [(taskB, 3)] := by
  refine ⟨?_, by decide, by decide, by decide⟩
  intro db u lim t cnt hmem
  unfold getTaskCollaborators at hmem
  simp only [List.mem_map] at hmem
  obtain ⟨t0, ht0, heq⟩ := hmem
  rw [Prod.mk.injEq] at heq
  obtain ⟨rfl, hcnt⟩ := heq
  rw [← hcnt]
  exact collaboratorCount_eq_card _ _

/-- Claim C5, witness: the count 3 reported for task 1 of `dbB` equals the
cardinality of the union of member ids and comment-author ids. -/
theorem task_collaborators_union_count_witness :
    3 = ((projectMemberIds dbB 1).toFinset ∪
         (commentUserIds dbB 1).toFinset).card :=
  task_collaborators_union_count.1 dbB 1 10 taskB 3 (by decide)

theorem actDesc_total : ∀ a b : Activity, actDesc a b || actDesc b a := by
  intro a b
  unfold actDesc
  rcases Nat.le_total b.timestamp a.timestamp with h | h <;> simp [h]

theorem actDesc_trans :
    ∀ a b c : Activity, actDesc a b = true → actDesc b c = true →
      actDesc a c = true := by
  intro a b c h1 h2
  unfold actDesc at *
  simp only [decide_eq_true_eq] at *
  omega

/-- Claim C3: for every store, user and limit, the recent-activity feed has
at most `limit` entries, is sorted non-increasing by timestamp, and every
entry arises from a task, comment or attachment visible to the user
(assignee, or owner/member of the task's project); task entries carry the
task's last-update instant as timestamp and are tagged `task_created`
exactly when the task has no completion time, `task_updated` otherwise. -/
theorem recent_activity_spec :
    ∀ db u limit,
      (getRecentActivity db u limit).length ≤ limit ∧
      (getRecentActivity db u limit).Pairwise
        (fun a b => b.timestamp ≤ a.timestamp) ∧
      (∀ act ∈ getRecentActivity db u limit,
        (∃ t ∈ db.tasks, taskVisibleTo db u t = true ∧ act = taskActivity t ∧
           act.timestamp = t.updatedAt ∧
           act.actType = (match t.completedAt with
             | some _ => ActivityType.task_updated
             | none => ActivityType.task_created)) ∨
        (∃ c ∈ db.comments, commentVisibleTo db u c = true ∧
           act = commentActivity db c) ∨
        (∃ a2 ∈ db.attachments, attachmentVisibleTo db u a2 = true ∧
           act = attachmentActivity db a2)) := by
  intro db u limit
  refine ⟨?_, ?_, ?_⟩
  · unfold getRecentActivity
    exact List.length_take_le _ _
  · unfold getRecentActivity
    have hp := pairwise_sortLe actDesc_total actDesc_trans
      (allActivitiesQ db u limit)
    have hq := List.Pairwise.sublist
      (List.take_sublist limit (sortLe actDesc (allActivitiesQ db u limit))) hp
    exact hq.imp (fun h => by
      have h2 := h
      unfold actDesc at h2
      simpa using h2)
  · intro act hact
    unfold getRecentActivity at hact
    have h1 : act ∈ allActivitiesQ db u limit :=
      mem_sortLe.mp (List.mem_of_mem_take hact)
    unfold allActivitiesQ at h1
    rcases List.mem_append.mp h1 with h2 | h2
    · rcases List.mem_append.mp h2 with h3 | h3
      · left
        obtain ⟨t, ht, heq⟩ := List.mem_map.mp h3
        have ht2 : t ∈ db.tasks.filter (taskVisibleTo db u) := by
          unfold recentTasksQ at ht
          exact mem_sortLe.mp (List.mem_of_mem_take ht)
        rw [List.mem_filter] at ht2
        refine ⟨t, ht2.1, ht2.2, heq.symm, ?_, ?_⟩
        · rw [← heq]; rfl
        · rw [← heq]; rfl
      · right
        left
        obtain ⟨c, hc, heq⟩ := List.mem_map.mp h3
        have hc2 : c ∈ db.comments.filter (commentVisibleTo db u) := by
          unfold recentCommentsQ at hc
          exact mem_sortLe.mp (List.mem_of_mem_take hc)
        rw [List.mem_filter] at hc2
        exact ⟨c, hc2.1, hc2.2, heq.symm⟩
    · right
      right
      obtain ⟨a2, ha, heq⟩ := List.mem_map.mp h2
      have ha2 : a2 ∈ db.attachments.filter (attachmentVisibleTo db u) := by
        unfold recentAttachmentsQ at ha
        exact mem_sortLe.mp (List.mem_of_mem_take ha)
      rw [List.mem_filter] at ha2
      exact ⟨a2, ha2.1, ha2.2, heq.symm⟩

theorem dueLe_total : ∀ x y : Option Nat, dueLe x y || dueLe y x := by
  intro x y
  cases x <;> cases y <;> simp [dueLe] <;> omega

theorem dueLe_trans :
    ∀ x y z : Option Nat, dueLe x y = true → dueLe y z = true →
      dueLe x z = true := by
  intro x y z h1 h2
  cases x <;> cases y <;> cases z <;> simp_all [dueLe] <;> omega

theorem pendingLe_total : ∀ a b : Task, pendingLe a b || pendingLe b a := by
  intro a b
  unfold pendingLe
  by_cases h : a.priority = b.priority
  · simp only [beq_iff_eq.mpr h, beq_iff_eq.mpr h.symm, if_true]
    exact dueLe_total _ _
  · simp only [beq_eq_false_iff_ne.mpr h, beq_eq_false_iff_ne.mpr (Ne.symm h),
      Bool.false_eq_true, if_false]
    rcases lt_or_gt_of_ne h with hlt | hgt
    · simp [hlt]
    · simp [hgt]

theorem pendingLe_trans :
    ∀ a b c : Task, pendingLe a b = true → pendingLe b c = true →
      pendingLe a c = true := by
  intro a b c hab hbc
  unfold pendingLe at *
  by_cases h1 : a.priority = b.priority <;> by_cases h2 : b.priority = c.priority
  · rw [if_pos (beq_iff_eq.mpr h1)] at hab
    rw [if_pos (beq_iff_eq.mpr h2)] at hbc
    rw [if_pos (beq_iff_eq.mpr (h1.trans h2))]
    exact dueLe_trans _ _ _ hab hbc
  · simp only [beq_eq_false_iff_ne.mpr h2, Bool.false_eq_true, if_false] at hbc
    have hcb : c.priority < b.priority := by simpa using hbc
    have hca : c.priority < a.priority := by rw [h1]; exact hcb
    simp only [beq_eq_false_iff_ne.mpr hca.ne', Bool.false_eq_true, if_false]
    simpa using hca
  · simp only [beq_eq_false_iff_ne.mpr h1, Bool.false_eq_true, if_false] at hab
    have hba : b.priority < a.priority := by simpa using hab
    have hca : c.priority < a.priority := by rw [← h2]; exact hba
    simp only [beq_eq_false_iff_ne.mpr hca.ne', Bool.false_eq_true, if_false]
    simpa using hca
  · simp only [beq_eq_false_iff_ne.mpr h1, Bool.false_eq_true, if_false] at hab
    simp only [beq_eq_false_iff_ne.mpr h2, Bool.false_eq_true, if_false] at hbc
    have hba : b.priority < a.priority := by simpa using hab
    have hcb : c.priority < b.priority := by simpa using hbc
    have hca : c.priority < a.priority := hcb.trans hba
    simp only [beq_eq_false_iff_ne.mpr hca.ne', Bool.false_eq_true, if_false]
    simpa using hca

theorem pendingLe_imp {a b : Task} (h : pendingLe a b = true) :
    b.priority ≤ a.priority ∧
    (a.priority = b.priority → dueLe a.dueDate b.dueDate = true) := by
  unfold pendingLe at h
  by_cases hpr : a.priority = b.priority
  · rw [if_pos (beq_iff_eq.mpr hpr)] at h
    exact ⟨le_of_eq hpr.symm, fun _ => h⟩
  · simp only [beq_eq_false_iff_ne.mpr hpr, Bool.false_eq_true, if_false] at h
    have hlt : b.priority < a.priority := by simpa using h
    exact ⟨le_of_lt hlt, fun he => absurd he hpr⟩

/-- Claim C4: the pending-tasks section counts exactly the visible tasks
whose status is not `Done`; the returned page contains only such tasks, has
`min limit count` rows, is ordered by priority descending (as the database
orders the column) with ties by due date ascending (nulls last), and — when
the total fits in the page — contains every visible non-Done task exactly
once. -/
theorem pending_tasks_spec :
    ∀ db u limit, WFdb db →
      (getPendingTasks db u limit).1 =
        (db.tasks.filter (pendingPred db u)).length ∧
      (∀ t ∈ (getPendingTasks db u limit).2,
        (t.status == "Done") = false ∧ taskVisibleTo db u t = true ∧
          t ∈ db.tasks) ∧
      (getPendingTasks db u limit).2.length =
        min limit (db.tasks.filter (pendingPred db u)).length ∧
      (getPendingTasks db u limit).2.Pairwise
        (fun a b => b.priority ≤ a.priority ∧
          (a.priority = b.priority → dueLe a.dueDate b.dueDate = true)) ∧
      ((db.tasks.filter (pendingPred db u)).length ≤ limit →
        ∀ t ∈ db.tasks, pendingPred db u t = true →
          (getPendingTasks db u limit).2.count t = 1) := by
  intro db u limit hwf
  refine ⟨rfl, ?_, ?_, ?_, ?_⟩
  · intro t ht
    unfold getPendingTasks at ht
    have h1 : t ∈ db.tasks.filter (pendingPred db u) :=
      mem_sortLe.mp (List.mem_of_mem_take ht)
    rw [List.mem_filter] at h1
    have h2 := h1.2
    unfold pendingPred at h2
    rw [Bool.and_eq_true] at h2
    refine ⟨?_, h2.2, h1.1⟩
    have h3 := h2.1
    cases h4 : t.status == "Done"
    · rfl
    · rw [bne_iff_ne] at h3
      rw [beq_iff_eq] at h4
      exact absurd h4 h3
  · unfold getPendingTasks
    rw [List.length_take, (sortLe_perm _ _).length_eq]
  · unfold getPendingTasks
    have hp := pairwise_sortLe pendingLe_total pendingLe_trans
      (db.tasks.filter (pendingPred db u))
    have hq := List.Pairwise.sublist
      (List.take_sublist limit
        (sortLe pendingLe (db.tasks.filter (pendingPred db u)))) hp
    exact hq.imp (fun h => pendingLe_imp h)
  · intro hle t ht hpred
    unfold getPendingTasks
    have hlen : (sortLe pendingLe (db.tasks.filter (pendingPred db u))).length =
        (db.tasks.filter (pendingPred db u)).length :=
      (sortLe_perm _ _).length_eq
    rw [List.take_of_length_le (by rw [hlen]; exact hle)]
    rw [(sortLe_perm pendingLe (db.tasks.filter (pendingPred db u))).count_eq]
    rw [List.count_filter hpred]
    obtain ⟨-, -, -, hids, -⟩ := hwf
    exact List.count_eq_one_of_mem (List.Nodup.of_map _ hids) ht

/-- Claim C4, witness: in `dbA`, for user 2 the single visible pending task
(task 1, assigned to user 2, status `Todo`) appears exactly once in the
page. -/
theorem pending_tasks_spec_witness :
    (getPendingTasks dbA 2 10).2.count taskA = 1 :=
  (pending_tasks_spec dbA 2 10 (by decide)).2.2.2.2 (by decide) taskA
    (by decide) (by decide)

end PMBackend
